import Mathlib

/-!
Shallow embedding of the gvariant crate (src/gvariant/src/lib.rs) over byte
lists, together with theorems settling the specification claims.

Bytes are modelled as natural numbers (a serialised buffer is a List Nat whose
entries are below 256).  Rust operations that can panic (out-of-bounds slice
indexing, overflow-checked usize arithmetic, unreachable arms) are modelled in
the Option monad, with none standing for a panic.
-/

/-- Little-endian value of a byte list, as in u16/u32/u64::from_le_bytes. -/
def leBytes : List Nat → Nat
  | [] => 0
  | b :: bs => b + 256 * leBytes bs

/-- Rust usize subtraction a - b.  Overflow is a program error in Rust: debug
builds panic, release builds wrap.  Modelled as none on underflow. -/
def usizeSub (a b : Nat) : Option Nat :=
  if b ≤ a then some (a - b) else none

/-- Rust slice indexing data[s..]: panics when s exceeds the length. -/
def sliceFrom (d : List Nat) (s : Nat) : Option (List Nat) :=
  if s ≤ d.length then some (d.drop s) else none

/-- Rust slice indexing data[..e][s..] as used by the element decoders:
panics unless s ≤ e and e ≤ length. -/
def sliceRange (d : List Nat) (s e : Nat) : Option (List Nat) :=
  if s ≤ e ∧ e ≤ d.length then some ((d.take e).drop s) else none

/-- offset_size from lib.rs (lines 204-213): the framing-offset width as a
function of the container length.  In Rust the argument is a usize, so it is
below 2 to the 64 and the final unreachable arm is dead code; the model simply
returns 8 on the whole last range. -/
def offset_size (len : Nat) : Nat :=
  if len = 0 then 0
  else if len ≤ 0xFF then 1
  else if len ≤ 0xFFFF then 2
  else if len ≤ 0xFFFFFFFF then 4
  else 8

/-- read_uint from lib.rs (lines 215-224): reads the n-th little-endian
integer of width size from data, starting at byte n * size.  Width 0 yields 0
without reading.  The Rust slice indexing panics (none) when the read would
fall outside data. -/
def read_uint (data : List Nat) (size : Nat) (n : Nat) : Option Nat :=
  let s := n * size
  if size = 0 then some 0
  else if s + size ≤ data.length then some (leBytes ((data.drop s).take size))
  else none

/-- read_last_frame_offset from lib.rs (lines 226-229): the offset width for
the container together with the integer stored in its final osz bytes.  The
slice data[len - osz..] is always in bounds because offset_size len ≤ len. -/
def read_last_frame_offset (data : List Nat) : Nat × Option Nat :=
  let osz := offset_size data.length
  (osz, read_uint (data.drop (data.length - osz)) osz 0)

/-- A decodable element type for the generic containers: its alignment
requirement (AlignOf) and its view decoder.  For a non-fixed-size element type
such as Str, Cast::try_from_aligned_slice never fails, so the decoder is a
total function of the byte view; the default value demanded by the format is
the decode of the empty slice, matching
try_from_aligned_slice(empty_aligned()).unwrap() in the source. -/
structure ElemType (α : Type) where
  align : Nat
  decode : List Nat → α

/-- Str as an element type: AlignOf = A1 and try_from_aligned_slice is
ref_cast, i.e. the identity on the byte view. -/
def strType : ElemType (List Nat) := ⟨1, id⟩

/-- Modelled from the spec: the Offset-Rounding collaborator (module offset,
not under src/) supplies roundUp(position, alignment), the least position at
or after the given one that is a multiple of the alignment. -/
def align_offset (align n : Nat) : Nat :=
  ((n + align - 1) / align) * align

/-- NonFixedWidthArray::len from lib.rs (lines 259-281).  The U0 arm is an
unreachable panic in the source; the usize subtraction len - lfo underflows
(program error) when the stored last frame offset exceeds the length. -/
def nfwa_len (data : List Nat) : Option Nat :=
  if data.length = 0 then some 0
  else
    match read_last_frame_offset data with
    | (osz, some lfo) =>
        if osz = 0 then none
        else (usizeSub data.length lfo).map (fun d => d / osz)
    | (_, none) => none

/-- State of NonFixedWidthArrayIterator (lib.rs lines 282-287): the cursor
into the payload, the cursor into the offset table, and the offset width. -/
structure NfwaIter where
  next_start : Nat
  offset_idx : Nat
  osz : Nat
deriving DecidableEq, Repr

/-- IntoIterator for &NonFixedWidthArray from lib.rs (lines 315-327):
next_start = 0, offset_idx = last frame offset, offset_size from the
container length. -/
def nfwa_into_iter (data : List Nat) : Option NfwaIter :=
  match read_last_frame_offset data with
  | (osz, some lfo) => some ⟨0, lfo, osz⟩
  | (_, none) => none

/-- NonFixedWidthArrayIterator::next from lib.rs (lines 288-313).  The outer
Option models panics: some none is iterator exhaustion (Rust None), and
some (some (v, st)) yields v with successor state st.  The source first
slices data[offset_idx..] (a panic when offset_idx exceeds the length), reads
end there, advances offset_idx by the offset width, sets next_start = end,
and yields the default (decode of the empty slice) when end < start or
end ≥ length, otherwise the decode of data[..end][start..]. -/
def nfwa_iter_next {α : Type} (E : ElemType α) (data : List Nat) (st : NfwaIter) :
    Option (Option (α × NfwaIter)) :=
  if st.offset_idx = data.length then some none
  else
    match sliceFrom data st.offset_idx with
    | none => none
    | some tail =>
      match read_uint tail st.osz 0 with
      | none => none
      | some e =>
        let start := align_offset E.align st.next_start
        let st' : NfwaIter := ⟨e, st.offset_idx + st.osz, st.osz⟩
        if e < start ∨ e ≥ data.length then
          some (some (E.decode [], st'))
        else
          match sliceRange data start e with
          | none => none
          | some v => some (some (E.decode v, st'))

/-- Index for NonFixedWidthArray from lib.rs (lines 328-350).  The source
reads (osz, lfo), slices frame_offsets = data[lfo..] (a panic when lfo
exceeds the length), reads end at table index i and start at table index
i - 1 (0 for i = 0), alignment-rounds start, and returns the decode of
data[..end][start..] when start < len, end < len and start ≤ end, otherwise
the default (decode of the empty slice). -/
def nfwa_index {α : Type} (E : ElemType α) (data : List Nat) (i : Nat) : Option α :=
  match read_last_frame_offset data with
  | (_, none) => none
  | (osz, some lfo) =>
    match sliceFrom data lfo with
    | none => none
    | some frame_offsets =>
      match read_uint frame_offsets osz i with
      | none => none
      | some e =>
        match (if i = 0 then some 0
               else read_uint frame_offsets osz (i - 1)) with
        | none => none
        | some s0 =>
          let s := align_offset E.align s0
          if s < data.length ∧ e < data.length ∧ s ≤ e then
            match sliceRange data s e with
            | none => none
            | some v => some (E.decode v)
          else
            some (E.decode [])

/-- MaybeNonFixedSize::to_option from lib.rs (lines 424-441): none for the
empty view, otherwise the child decoded from data[..len - 1].  For a
non-fixed-size child the decode is total, so no panic is possible here; the
result Option is the Rust Option (nothing / just). -/
def maybe_nfs_to_option {α : Type} (E : ElemType α) (data : List Nat) : Option α :=
  if data.isEmpty then none
  else some (E.decode (data.take (data.length - 1)))

/-- Modelled from the spec: casting::try_cast_slice_to for a fixed-size type
(module casting, not under src/) succeeds exactly when the view length equals
sizeof(T) (spec section 4.1: byte-exact length match for fixed-size types). -/
def try_cast_fixed {α : Type} (size : Nat) (decode : List Nat → α) (data : List Nat) :
    Option α :=
  if data.length = size then some (decode data) else none

/-- MaybeFixedSize::to_option from lib.rs (lines 366-383):
T::try_from_aligned_slice(&self.data).ok(). -/
def maybe_fs_to_option {α : Type} (size : Nat) (decode : List Nat → α) (data : List Nat) :
    Option α :=
  try_cast_fixed size decode data

/-- Str::to_bytes from lib.rs (lines 75-81): the content without its final
byte when that byte is NUL, and the empty sequence otherwise. -/
def str_to_bytes (d : List Nat) : List Nat :=
  match d.getLast? with
  | some 0 => d.take (d.length - 1)
  | _ => []

/-- Str::to_cstr from lib.rs (lines 82-89): the data is replaced by a single
NUL byte when its last byte is not NUL, and the result is the bytes up to and
including the first NUL of the replaced data.  The two unwraps in the source
cannot fail: the replaced data always contains a NUL, and the taken window
contains exactly one NUL, at its end. -/
def str_to_cstr (d : List Nat) : List Nat :=
  let d' := match d.getLast? with
    | some 0 => d
    | _ => [0]
  d'.take (d'.findIdx (fun x => x == 0) + 1)

/-- PartialEq for Str from lib.rs (lines 112-116): equality of the to_cstr
forms (CStr equality is equality of the underlying byte content). -/
def str_eq (a b : List Nat) : Prop :=
  str_to_cstr a = str_to_cstr b

instance (a b : List Nat) : Decidable (str_eq a b) :=
  inferInstanceAs (Decidable (str_to_cstr a = str_to_cstr b))

/-- Bool::to_bool from lib.rs (lines 482-486): any non-zero byte is true. -/
def bool_to_bool (b : Nat) : Bool :=
  b > 0

-- Sanity examples from the crate test-suite (test_non_fixed_width_array and
-- test_gvariantstr).

example : str_to_bytes [104, 101, 108, 108, 111, 0] = [104, 101, 108, 108, 111] := by decide

example :
    nfwa_len [104, 101, 108, 108, 111, 0, 119, 111, 114, 108, 100, 0, 6, 12] = some 2 := by
  decide

example :
    nfwa_index strType [104, 101, 108, 108, 111, 0, 119, 111, 114, 108, 100, 0, 6, 12] 0 =
      some [104, 101, 108, 108, 111, 0] := by decide

example :
    nfwa_index strType [104, 101, 108, 108, 111, 0, 119, 111, 114, 108, 100, 0, 6, 12] 1 =
      some [119, 111, 114, 108, 100, 0] := by decide

example : nfwa_len [] = some 0 := by decide

example : maybe_nfs_to_option strType [] = none := by decide

example : maybe_nfs_to_option strType [0] = some [] := by decide

-- Supporting lemmas about the offset machinery.

lemma offset_size_le (n : Nat) : offset_size n ≤ n := by
  unfold offset_size
  split_ifs <;> omega

lemma offset_size_pos (n : Nat) (h : n ≠ 0) : 0 < offset_size n := by
  unfold offset_size
  split_ifs <;> omega

/-- Total description of the last frame offset: the little-endian value of
the final offset_size len bytes of the container. -/
def lfoOf (data : List Nat) : Nat :=
  leBytes ((data.drop (data.length - offset_size data.length)).take
    (offset_size data.length))

/-- Total description of the i-th stored framing offset, read at byte
position lfo + i * osz. -/
def storedOffset (data : List Nat) (i : Nat) : Nat :=
  leBytes ((data.drop (lfoOf data + i * offset_size data.length)).take
    (offset_size data.length))

lemma read_uint_eq (d : List Nat) (size n : Nat) (hs : size ≠ 0)
    (h : n * size + size ≤ d.length) :
    read_uint d size n = some (leBytes ((d.drop (n * size)).take size)) := by
  unfold read_uint
  simp [hs, h]

lemma rlfo_eq (data : List Nat) :
    read_last_frame_offset data = (offset_size data.length, some (lfoOf data)) := by
  by_cases h0 : offset_size data.length = 0
  · simp [read_last_frame_offset, lfoOf, h0, read_uint, leBytes]
  · have hle := offset_size_le data.length
    have h1 : 0 * offset_size data.length + offset_size data.length ≤
        (List.drop (data.length - offset_size data.length) data).length := by
      simp [List.length_drop]
      omega
    simp only [read_last_frame_offset, lfoOf]
    rw [read_uint_eq _ _ _ h0 h1]
    simp

/-- C5: the framing-offset width is a pure function of the container length
following the table: 0 iff len = 0; 1 iff 1 ≤ len ≤ 255; 2 iff
256 ≤ len ≤ 65535; 4 iff 65536 ≤ len ≤ 4294967295; 8 otherwise. -/
theorem C5_offset_size_table (len : Nat) :
    (offset_size len = 0 ↔ len = 0) ∧
    (offset_size len = 1 ↔ 1 ≤ len ∧ len ≤ 255) ∧
    (offset_size len = 2 ↔ 256 ≤ len ∧ len ≤ 65535) ∧
    (offset_size len = 4 ↔ 65536 ≤ len ∧ len ≤ 4294967295) ∧
    (offset_size len = 8 ↔ 4294967296 ≤ len) := by
  unfold offset_size
  refine ⟨?_, ?_, ?_, ?_, ?_⟩ <;> split_ifs <;> simp <;> omega

/-- C4 (code bug): on the 1-byte container [0x02] the stored last frame
offset is 2, which exceeds the container length 1, so the usize subtraction
len - lfo in NonFixedWidthArray::len underflows instead of producing the
count (1 - 2) / 1 = 0 that the truncated element-count formula would give:
the accessor panics in debug builds (and wraps in release builds). -/
theorem C4_len_underflow : nfwa_len [2] = none := by decide

/-- C1 (code bug): the byte range [0x02] decoded as NonFixedWidthArray of
Str makes its accessors panic rather than return a value: len underflows the
usize subtraction, and the first call to next on a fresh iterator (whose
offset-table cursor starts at the stored last frame offset 2) slices
data[2..] on a 1-byte buffer, an out-of-bounds panic in every build. -/
theorem C1_accessors_panic :
    nfwa_len [2] = none ∧
    nfwa_into_iter [2] = some ⟨0, 2, 1⟩ ∧
    nfwa_iter_next strType [2] ⟨0, 2, 1⟩ = none := by decide

/-- C2 (code bug): on the 1-byte container [0x03] the fresh iterator starts
with its offset-table cursor at the stored last frame offset 3, which is
beyond the container, so the first call to next panics while slicing
data[3..] instead of yielding elements and then returning None. -/
theorem C2_iterator_panics :
    nfwa_into_iter [3] = some ⟨0, 3, 1⟩ ∧
    nfwa_iter_next strType [3] ⟨0, 3, 1⟩ = none := by decide

/-- C3 (counterexample): on the container [3, 65, 0] at index 0 the stored
offsets give start = 0 and end = 3 = view length, so none of the conditions
of the claim (start > length, end > length, start > end) holds and the claim
prescribes decoding view[0..3] = [3, 65, 0]; the code instead compares with
strict inequalities (end < length fails) and returns the default empty
value. -/
theorem C3_boundary_counterexample :
    ¬((0 : Nat) > 3 ∨ (3 : Nat) > 3 ∨ (0 : Nat) > 3) ∧
    nfwa_index strType [3, 65, 0] 0 = some [] ∧
    nfwa_index strType [3, 65, 0] 0 ≠ some (strType.decode [3, 65, 0]) := by decide

lemma read_frame_eq (data : List Nat) (j : Nat) (hos : offset_size data.length ≠ 0)
    (hl : lfoOf data ≤ data.length)
    (hj : lfoOf data + (j + 1) * offset_size data.length ≤ data.length) :
    read_uint (data.drop (lfoOf data)) (offset_size data.length) j =
      some (storedOffset data j) := by
  rw [Nat.add_mul, one_mul] at hj
  have hb : j * offset_size data.length + offset_size data.length ≤
      (data.drop (lfoOf data)).length := by
    simp only [List.length_drop]
    omega
  rw [read_uint_eq _ _ _ hos hb]
  rw [List.drop_drop]
  rw [storedOffset, Nat.add_comm (lfoOf data)]

/-- C3 (amended): provided the stored last frame offset lfo does not exceed
the view length and the offset-table reads for index i lie within the view
(otherwise the accessor panics, see C1), random access takes end = the i-th
stored framing offset and start = the alignment-rounded value of (0 if i = 0,
else the (i-1)-th stored offset); it returns the element type default when
start ≥ view.length or end ≥ view.length or start > end (the original claim
had strict >, excluding the boundary cases start = length and end = length
which the code also sends to the default), and otherwise the element decoded
from view[start..end]. -/
theorem C3_index_amended {α : Type} (E : ElemType α) (data : List Nat) (i : Nat)
    (hl : lfoOf data ≤ data.length)
    (ht : lfoOf data + (i + 1) * offset_size data.length ≤ data.length) :
    nfwa_index E data i =
      some (if data.length ≤ align_offset E.align (if i = 0 then 0 else storedOffset data (i - 1))
              ∨ data.length ≤ storedOffset data i
              ∨ storedOffset data i < align_offset E.align (if i = 0 then 0 else storedOffset data (i - 1))
            then E.decode []
            else E.decode ((data.take (storedOffset data i)).drop
                   (align_offset E.align (if i = 0 then 0 else storedOffset data (i - 1))))) := by
  by_cases hemp : data.length = 0
  · have h0 : offset_size data.length = 0 := by rw [hemp]; rfl
    have hlfo : lfoOf data = 0 := by
      simp [lfoOf, h0, leBytes]
    have hso : ∀ j, storedOffset data j = 0 := by
      intro j; simp [storedOffset, h0, leBytes]
    unfold nfwa_index
    rw [rlfo_eq]
    simp only [hlfo, h0]
    rw [sliceFrom, if_pos (by omega)]
    simp only [read_uint, if_pos rfl]
    by_cases hi : i = 0
    · subst hi
      simp [align_offset, hso, hemp]
    · rw [if_neg hi, if_neg hi]
      simp [read_uint, align_offset, hso, hemp]
  · have hos : offset_size data.length ≠ 0 := by
      have := offset_size_pos data.length hemp
      omega
    unfold nfwa_index
    rw [rlfo_eq]
    simp only []
    rw [sliceFrom, if_pos hl]
    simp only []
    rw [read_frame_eq data i hos hl ht]
    by_cases hi : i = 0
    · subst hi
      simp only [reduceIte]
      by_cases hg : align_offset E.align 0 < data.length ∧ storedOffset data 0 < data.length ∧
          align_offset E.align 0 ≤ storedOffset data 0
      · rw [if_pos hg]
        rw [sliceRange, if_pos ⟨hg.2.2, by omega⟩]
        rw [if_neg (by omega)]
      · rw [if_neg hg]
        rw [if_pos (by omega)]
    · rw [if_neg hi, if_neg hi]
      have hx : lfoOf data + (i - 1 + 1) * offset_size data.length ≤ data.length := by
        have h2 : (i - 1 + 1) * offset_size data.length ≤ (i + 1) * offset_size data.length :=
          Nat.mul_le_mul_right _ (by omega)
        omega
      rw [read_frame_eq data (i - 1) hos hl hx]
      simp only []
      by_cases hg : align_offset E.align (storedOffset data (i - 1)) < data.length ∧
          storedOffset data i < data.length ∧
          align_offset E.align (storedOffset data (i - 1)) ≤ storedOffset data i
      · rw [if_pos hg]
        rw [sliceRange, if_pos ⟨hg.2.2, by omega⟩]
        rw [if_neg (by omega)]
      · rw [if_neg hg]
        rw [if_pos (by omega)]

/-- Witness for C3 (amended): the crate test container for two strings,
hello and world with 1-byte offsets 6 and 12, at index 1: the hypotheses
hold concretely and the accessor yields the bytes of world. -/
theorem C3_index_amended_witness :
    nfwa_index strType [104, 101, 108, 108, 111, 0, 119, 111, 114, 108, 100, 0, 6, 12] 1 =
      some [119, 111, 114, 108, 100, 0] := by
  have h := C3_index_amended strType
    [104, 101, 108, 108, 111, 0, 119, 111, 114, 108, 100, 0, 6, 12] 1
    (by decide) (by decide)
  rw [h]
  decide

/-- C6: for a non-fixed-size child, MaybeNonFixedSize to_option is nothing
exactly on the empty range, and on any non-empty range (written child ++ [b])
it is just the child decoded from view[0..len-1], for every value of the
trailing byte b: only non-emptiness, not b being zero, selects the just
case. -/
theorem C6_maybe_nfs {α : Type} (E : ElemType α) (child : List Nat) (b : Nat) :
    maybe_nfs_to_option E [] = none ∧
    maybe_nfs_to_option E (child ++ [b]) = some (E.decode child) := by
  constructor
  · rfl
  · unfold maybe_nfs_to_option
    rw [if_neg (by simp)]
    simp

/-- C7: MaybeFixedSize to_option (through the byte-exact fixed-size cast) is
nothing for length 0, just the decoded value for length exactly sizeof(T),
and nothing for any other length; sizeof(T) is positive for every fixed-size
type. -/
theorem C7_maybe_fixed {α : Type} (size : Nat) (decode : List Nat → α)
    (data : List Nat) (hsz : 0 < size) :
    (data.length = 0 → maybe_fs_to_option size decode data = none) ∧
    (data.length = size → maybe_fs_to_option size decode data = some (decode data)) ∧
    (data.length ≠ 0 → data.length ≠ size → maybe_fs_to_option size decode data = none) := by
  unfold maybe_fs_to_option try_cast_fixed
  refine ⟨?_, ?_, ?_⟩
  · intro h
    rw [if_neg (by omega)]
  · intro h
    rw [if_pos h]
  · intro h1 h2
    rw [if_neg h2]

/-- Witness for C7 at the 4-byte integer type (decode = little-endian
value): length 4 decodes, lengths 3 and 0 give nothing. -/
theorem C7_maybe_fixed_witness :
    maybe_fs_to_option 4 leBytes [1, 2, 3, 4] = some 67305985 ∧
    maybe_fs_to_option 4 leBytes [1, 2, 3] = none ∧
    maybe_fs_to_option 4 leBytes ([] : List Nat) = none := by
  refine ⟨?_, ?_, ?_⟩
  · have h := (C7_maybe_fixed 4 leBytes [1, 2, 3, 4] (by decide)).2.1 (by decide)
    rw [h]
    decide
  · exact (C7_maybe_fixed 4 leBytes [1, 2, 3] (by decide)).2.2 (by decide) (by decide)
  · exact (C7_maybe_fixed 4 leBytes [] (by decide)).1 (by decide)

lemma str_to_bytes_concat_nul (d : List Nat) : str_to_bytes (d ++ [0]) = d := by
  unfold str_to_bytes
  rw [List.getLast?_concat]
  simp

lemma str_to_bytes_concat_nonnul (d : List Nat) (b : Nat) (hb : b ≠ 0) :
    str_to_bytes (d ++ [b]) = [] := by
  unfold str_to_bytes
  rw [List.getLast?_concat]
  cases b with
  | zero => exact absurd rfl hb
  | succ n => rfl

/-- C8: to_bytes drops a single trailing NUL when the last byte is NUL, and
returns the empty sequence when the range is empty or its last byte b is not
NUL, never the raw un-terminated bytes. -/
theorem C8_str_to_bytes (d : List Nat) (b : Nat) (hb : b ≠ 0) :
    str_to_bytes [] = [] ∧
    str_to_bytes (d ++ [0]) = d ∧
    str_to_bytes (d ++ [b]) = [] := by
  exact ⟨rfl, str_to_bytes_concat_nul d, str_to_bytes_concat_nonnul d b hb⟩

/-- Witness for C8: hello with a trailing NUL keeps its content, and the
same bytes with a non-NUL tail give the empty sequence. -/
theorem C8_str_to_bytes_witness :
    (104 : Nat) ≠ 0 ∧
    str_to_bytes [104, 105, 0] = [104, 105] ∧
    str_to_bytes [104, 105, 104] = [] := by
  have h := C8_str_to_bytes [104, 105] 104 (by decide)
  exact ⟨by decide, h.2.1, h.2.2⟩

/-- The NUL-terminated form as the claim words it: the bytes up to and
including the first NUL, with an un-terminated input (empty, or last byte
not NUL) treated as a single NUL byte. -/
def specNulTerminatedForm (d : List Nat) : List Nat :=
  match d.getLast? with
  | some 0 => d.take (d.findIdx (fun x => x == 0) + 1)
  | _ => [0]

lemma str_to_cstr_eq_spec (d : List Nat) : str_to_cstr d = specNulTerminatedForm d := by
  unfold str_to_cstr specNulTerminatedForm
  cases h : d.getLast? with
  | none => rfl
  | some b =>
    cases b with
    | zero => rfl
    | succ n => rfl

/-- C9: Str equality holds iff the NUL-terminated forms agree (first-NUL
truncation, with un-terminated input treated as a single NUL byte), and it
is not raw byte equality. -/
theorem C9_str_eq_iff_nul_terminated :
    (∀ a b : List Nat, str_eq a b ↔ specNulTerminatedForm a = specNulTerminatedForm b) ∧
    ¬(∀ a b : List Nat, str_eq a b ↔ a = b) := by
  constructor
  · intro a b
    unfold str_eq
    rw [str_to_cstr_eq_spec, str_to_cstr_eq_spec]
  · intro h
    have h2 := (h [0] []).mp (by decide)
    exact absurd h2 (by decide)

lemma findIdx_append_first (xs rest : List Nat) (hx : 0 ∉ xs) :
    (xs ++ 0 :: rest).findIdx (fun x => x == 0) = xs.length := by
  induction xs with
  | nil => simp [List.findIdx_cons]
  | cons a as ih =>
    have ha : (a == 0) = false := by
      simp only [beq_eq_false_iff_ne, ne_eq]
      intro h
      exact hx (by simp [h])
    simp only [List.cons_append, List.findIdx_cons, ha, cond_false, List.length_cons]
    rw [ih (fun hm => hx (List.mem_cons_of_mem _ hm))]

lemma str_to_cstr_interior (xs ys : List Nat) (hx : 0 ∉ xs) :
    str_to_cstr ((xs ++ 0 :: ys) ++ [0]) = xs ++ [0] := by
  unfold str_to_cstr
  rw [List.getLast?_concat]
  simp only [List.append_assoc, List.cons_append]
  rw [findIdx_append_first xs (ys ++ [0]) hx]
  rw [List.take_append_eq_append_take]
  simp

/-- C10: on a view xs ++ [0] ++ ys ++ [0] whose last byte is NUL and which
has an interior NUL (the xs part being NUL-free), to_bytes keeps everything
up to the trailing NUL, interior NUL included, while to_cstr truncates at
the first NUL; consequently there are views equal under the Str equality
whose to_bytes differ. -/
theorem C10_interior_nul (xs ys : List Nat) (hx : 0 ∉ xs) :
    str_to_bytes ((xs ++ 0 :: ys) ++ [0]) = xs ++ 0 :: ys ∧
    str_to_cstr ((xs ++ 0 :: ys) ++ [0]) = xs ++ [0] ∧
    (∃ a b : List Nat, str_eq a b ∧ str_to_bytes a ≠ str_to_bytes b) := by
  exact ⟨str_to_bytes_concat_nul (xs ++ 0 :: ys), str_to_cstr_interior xs ys hx,
    ⟨[0, 0], [0], by decide, by decide⟩⟩

/-- Witness for C10 with xs = [104], ys = [119]: the view h\x00w\x00. -/
theorem C10_interior_nul_witness :
    (0 : Nat) ∉ [104] ∧
    str_to_bytes [104, 0, 119, 0] = [104, 0, 119] ∧
    str_to_cstr [104, 0, 119, 0] = [104, 0] := by
  have h := C10_interior_nul [104] [119] (by decide)
  exact ⟨by decide, h.1, h.2.1⟩
